import Mathlib

/-!
Verification of the task-list store in `src/app/page.tsx` of the
task-manager-nextjs repository: the data model (Task), the store
operations (add, toggle, delete, clear-all, edit session, filter
derivation), the localStorage persistence contract, and the load path.

The store logic is embedded shallowly: React state becomes an explicit
`StoreState`, each event handler becomes a pure state transformer, and
the `useEffect` save hook (which fires after every change of `tasks`)
is folded into each transformer as `persistEffect`. `Date.now()` and
`new Date()` are modelled by an explicit `now : Nat` argument
(milliseconds). The JSON / Date builtins of the platform are not
repository code and are modelled from the spec (see `SlotStr`,
`dateEncode`, `dateDecode`).
-/

namespace TaskManager

/-- Whitespace as recognised by JavaScript `String.prototype.trim`
(WhiteSpace and LineTerminator code points). -/
def isJsWhitespace (c : Char) : Bool :=
  c.toNat = 0x9 || c.toNat = 0xA || c.toNat = 0xB || c.toNat = 0xC ||
  c.toNat = 0xD || c.toNat = 0x20 || c.toNat = 0xA0 || c.toNat = 0x1680 ||
  (0x2000 ≤ c.toNat && c.toNat ≤ 0x200A) || c.toNat = 0x2028 ||
  c.toNat = 0x2029 || c.toNat = 0x202F || c.toNat = 0x205F ||
  c.toNat = 0x3000 || c.toNat = 0xFEFF

/-- List-level body of JavaScript `trim`: drop whitespace from the front,
then from the back. -/
def jsTrimList (l : List Char) : List Char :=
  ((l.dropWhile isJsWhitespace).reverse.dropWhile isJsWhitespace).reverse

/-- JavaScript `String.prototype.trim`, as used by `addTask` and `saveEdit`. -/
def jsTrim (s : String) : String :=
  ⟨jsTrimList s.data⟩

/-- The `Task` interface of `page.tsx`. `createdAt : Date` is modelled as
milliseconds since the epoch (the value of `Date.now()`). -/
structure Task where
  id : Nat
  text : String
  completed : Bool
  createdAt : Nat
deriving Repr, DecidableEq

/-- A task as it appears in the persisted JSON value: identical to `Task`
except that `createdAt` is the string produced by the JSON Date encoding
(the source re-parses it with `new Date(task.createdAt)` on load). -/
structure PTask where
  id : Nat
  text : String
  completed : Bool
  createdAt : String
deriving Repr, DecidableEq

/-- Modelled from the spec: the JSON serializer's millisecond-precision
encoding of a `Date` as a string "parseable back into a timestamp"
(spec §3 `createdAt`, §6). The calendar formatting of the ISO string is
irrelevant to every claim; what is modelled is an injective
millisecond-precision decimal encoding. -/
def dateEncode (n : Nat) : String :=
  ⟨(Nat.digits 10 n).reverse.map (fun d => Char.ofNat (48 + d))⟩

/-- Decimal digit value of a character. -/
def charToDigit (c : Char) : Nat := c.toNat - 48

/-- Modelled from the spec: `new Date(s)` on an encoded date string,
recovering the millisecond timestamp (spec §3: an "ISO-compatible string
round-tripped back to a timestamp"). -/
def dateDecode (s : String) : Nat :=
  Nat.ofDigits 10 ((s.data.map charToDigit).reverse)

/-- Serialized form of one task (`createdAt` goes through the Date
encoding; all other fields are encoded exactly). -/
def taskToP (t : Task) : PTask :=
  ⟨t.id, t.text, t.completed, dateEncode t.createdAt⟩

/-- The load path's per-task reconstruction
`{ ...task, createdAt: new Date(task.createdAt) }`. -/
def decodeTask (p : PTask) : Task :=
  ⟨p.id, p.text, p.completed, dateDecode p.createdAt⟩

/-- Modelled from the spec: a string held by the persistence slot, viewed
through the JSON grammar. `JSON.parse` succeeds exactly on the strings
`JSON.stringify` produces for a task list (constructor `encoded`) and
throws on any non-parseable string (constructor `malformed`), per spec §6:
"a value that fails to parse is treated as absent". -/
inductive SlotStr where
  | encoded : List PTask → SlotStr
  | malformed : String → SlotStr
deriving Repr, DecidableEq

/-- Modelled from the spec: `JSON.stringify(tasks)` (spec §6: the slot
value is a serialized encoding of the task list with `createdAt` as a
string). -/
def serializeTasks (l : List Task) : SlotStr :=
  .encoded (l.map taskToP)

/-- Modelled from the spec: `JSON.parse` on a slot value, returning the
task array on success and failing (the caught exception of the source's
`try`/`catch`) on a malformed string. -/
def parseTasks : SlotStr → Option (List PTask)
  | .encoded l => some l
  | .malformed _ => none

/-- The React state of the `Home` component that the store logic touches:
`tasks`, the persistence slot `localStorage["taskManager_tasks"]`, and the
edit session (`editingId`, `editingText`). The filter and the add-form
input are passed as arguments where relevant. -/
structure StoreState where
  tasks : List Task
  slot : Option SlotStr
  editingId : Option Nat
  editingText : String
deriving Repr, DecidableEq

/-- The save `useEffect`: after every change of `tasks`, write the
serialized list to the slot — but only `if (tasks.length > 0)`. -/
def persistEffect (s : StoreState) : StoreState :=
  if s.tasks.length > 0 then { s with slot := some (serializeTasks s.tasks) } else s

/-- `addTask`: no-op when the trimmed input is empty; otherwise append a
task with `id = Date.now()`, trimmed text, `completed = false`,
`createdAt = new Date()` (both clock reads modelled as `now`), then the
save effect fires. -/
def addTask (input : String) (now : Nat) (s : StoreState) : StoreState :=
  if jsTrim input = "" then s
  else persistEffect { s with
    tasks := s.tasks ++ [⟨now, jsTrim input, false, now⟩] }

/-- `toggleTask`: flip `completed` on every task whose id matches, then
the save effect fires. -/
def toggleTask (i : Nat) (s : StoreState) : StoreState :=
  persistEffect { s with
    tasks := s.tasks.map (fun t =>
      if t.id = i then { t with completed := !t.completed } else t) }

/-- `deleteTask`: remove the matching task; if no tasks remain the slot is
removed inside the updater (`localStorage.removeItem`), and the save
effect then fires (skipping the write because the list is empty). -/
def deleteTask (i : Nat) (s : StoreState) : StoreState :=
  let newTasks := s.tasks.filter (fun t => t.id ≠ i)
  persistEffect (if newTasks.length = 0
    then { s with tasks := newTasks, slot := none }
    else { s with tasks := newTasks })

/-- `clearAllTasks`: empty the list and remove the slot; the save effect
fires and skips the write. -/
def clearAllTasks (s : StoreState) : StoreState :=
  persistEffect { s with tasks := [], slot := none }

/-- `startEditing`: open the edit session with the caller-supplied text. -/
def startEditing (i : Nat) (text : String) (s : StoreState) : StoreState :=
  { s with editingId := some i, editingText := text }

/-- `saveEdit`: no-op when the trimmed scratch buffer is empty; otherwise
replace the text of every matching task with the trimmed buffer, close
the session, and the save effect fires. -/
def saveEdit (i : Nat) (s : StoreState) : StoreState :=
  if jsTrim s.editingText = "" then s
  else persistEffect { s with
    tasks := s.tasks.map (fun t =>
      if t.id = i then { t with text := jsTrim s.editingText } else t),
    editingId := none,
    editingText := "" }

/-- `cancelEdit`: close the edit session; no task state changes, so the
save effect does not fire. -/
def cancelEdit (s : StoreState) : StoreState :=
  { s with editingId := none, editingText := "" }

/-- The load `useEffect` (runs once on mount): read the slot; if present,
parse inside `try`/`catch` and rebuild `createdAt` from its string form;
on a parse failure the error is logged and the state is left untouched.
A successful `setTasks` re-triggers the save effect. -/
def loadOp (s : StoreState) : StoreState :=
  match s.slot with
  | none => s
  | some v =>
    match parseTasks v with
    | some ps => persistEffect { s with tasks := ps.map decodeTask }
    | none => s

/-- The `FilterType` union of `page.tsx`. -/
inductive FilterType where
  | all
  | active
  | completed
deriving Repr, DecidableEq

/-- The callback of `tasks.filter` in `filteredTasks`, with the current
filter captured. -/
def filterPred (f : FilterType) (t : Task) : Bool :=
  match f with
  | .active => !t.completed
  | .completed => t.completed
  | .all => true

/-- `filteredTasks`: the derived view of the list under the current filter. -/
def filteredTasks (f : FilterType) (l : List Task) : List Task :=
  l.filter (filterPred f)

/-- `activeCount` and `completedCount`, the derived counters. -/
def activeCount (l : List Task) : Nat :=
  (l.filter (fun t => !t.completed)).length

def completedCount (l : List Task) : Nat :=
  (l.filter (fun t => t.completed)).length

/-- The component's initial state: empty list, empty edit session, and a
slot as left by any previous session (carried in `slot0`). -/
def initState (slot0 : Option SlotStr) : StoreState :=
  ⟨[], slot0, none, ""⟩

/-! ### Helper lemmas about `jsTrim` -/

theorem dropWhile_head_false {α : Type} (p : α → Bool) :
    ∀ (l : List α) {a : α} {t : List α}, l.dropWhile p = a :: t → p a = false := by
  intro l
  induction l with
  | nil => intro a t h; simp [List.dropWhile] at h
  | cons x xs ih =>
    intro a t h
    rw [List.dropWhile_cons] at h
    by_cases hp : p x = true
    · rw [if_pos hp] at h
      exact ih h
    · rw [if_neg hp] at h
      injection h with h1 _
      subst h1
      simpa using hp

theorem dropWhile_idem {α : Type} (p : α → Bool) (l : List α) :
    (l.dropWhile p).dropWhile p = l.dropWhile p := by
  cases h : l.dropWhile p with
  | nil => rfl
  | cons a t =>
    rw [List.dropWhile_cons, if_neg]
    simp [dropWhile_head_false p l h]

theorem jsTrimList_append_rest (l : List Char) :
    ∃ rest, l.dropWhile isJsWhitespace = jsTrimList l ++ rest := by
  refine ⟨((l.dropWhile isJsWhitespace).reverse.takeWhile isJsWhitespace).reverse, ?_⟩
  unfold jsTrimList
  conv_lhs => rw [← List.reverse_reverse (l.dropWhile isJsWhitespace),
    ← List.takeWhile_append_dropWhile isJsWhitespace (l.dropWhile isJsWhitespace).reverse]
  rw [List.reverse_append]

theorem jsTrimList_idem (l : List Char) :
    jsTrimList (jsTrimList l) = jsTrimList l := by
  have hleft : (jsTrimList l).dropWhile isJsWhitespace = jsTrimList l := by
    cases h : jsTrimList l with
    | nil => rfl
    | cons a t =>
      obtain ⟨rest, hres⟩ := jsTrimList_append_rest l
      rw [h] at hres
      have ha : isJsWhitespace a = false :=
        dropWhile_head_false isJsWhitespace l (by simpa using hres)
      rw [List.dropWhile_cons, if_neg]
      simp [ha]
  have hright : (jsTrimList l).reverse.dropWhile isJsWhitespace = (jsTrimList l).reverse := by
    unfold jsTrimList
    rw [List.reverse_reverse]
    exact dropWhile_idem _ _
  show ((((jsTrimList l).dropWhile isJsWhitespace).reverse).dropWhile isJsWhitespace).reverse = _
  rw [hleft, hright, List.reverse_reverse]

theorem jsTrim_idem (s : String) : jsTrim (jsTrim s) = jsTrim s :=
  congrArg String.mk (jsTrimList_idem s.data)

/-! ### Helper lemmas about the date codec -/

theorem charToDigit_enc {d : Nat} (hd : d < 10) :
    charToDigit (Char.ofNat (48 + d)) = d := by
  interval_cases d <;> decide

theorem dateDecode_dateEncode (n : Nat) : dateDecode (dateEncode n) = n := by
  unfold dateDecode dateEncode
  show Nat.ofDigits 10
      ((((Nat.digits 10 n).reverse.map (fun d => Char.ofNat (48 + d))).map charToDigit).reverse) = n
  rw [List.map_map]
  have hmap : (Nat.digits 10 n).reverse.map (charToDigit ∘ fun d => Char.ofNat (48 + d)) =
      (Nat.digits 10 n).reverse := by
    have := List.map_congr_left (l := (Nat.digits 10 n).reverse)
      (f := charToDigit ∘ fun d => Char.ofNat (48 + d)) (g := id) ?_
    · simpa using this
    · intro d hd
      have : d < 10 := Nat.digits_lt_base (by norm_num) (List.mem_reverse.mp hd)
      simpa using charToDigit_enc this
  rw [hmap, List.reverse_reverse, Nat.ofDigits_digits]

theorem decodeTask_taskToP (t : Task) : decodeTask (taskToP t) = t := by
  cases t
  simp [decodeTask, taskToP, dateDecode_dateEncode]

/-! ### Helper lemmas about `persistEffect` and the operations -/

theorem persistEffect_tasks (s : StoreState) : (persistEffect s).tasks = s.tasks := by
  unfold persistEffect; split <;> rfl

theorem persistEffect_editingId (s : StoreState) :
    (persistEffect s).editingId = s.editingId := by
  unfold persistEffect; split <;> rfl

theorem persistEffect_editingText (s : StoreState) :
    (persistEffect s).editingText = s.editingText := by
  unfold persistEffect; split <;> rfl

theorem persistEffect_slot_of_ne (s : StoreState) (h : s.tasks ≠ []) :
    (persistEffect s).slot = some (serializeTasks s.tasks) := by
  unfold persistEffect
  rw [if_pos (by simpa [List.length_pos] using h)]

theorem persistEffect_slot_of_nil (s : StoreState) (h : s.tasks = []) :
    (persistEffect s).slot = s.slot := by
  unfold persistEffect
  rw [if_neg (by simp [h])]

theorem addTask_of_trim_nil {input : String} (now : Nat) (s : StoreState)
    (h : jsTrim input = "") : addTask input now s = s := by
  unfold addTask; rw [if_pos h]

theorem addTask_tasks_of_ne {input : String} (now : Nat) (s : StoreState)
    (h : jsTrim input ≠ "") :
    (addTask input now s).tasks = s.tasks ++ [⟨now, jsTrim input, false, now⟩] := by
  unfold addTask; rw [if_neg h, persistEffect_tasks]

theorem addTask_slot_of_ne {input : String} (now : Nat) (s : StoreState)
    (h : jsTrim input ≠ "") :
    (addTask input now s).slot =
      some (serializeTasks (s.tasks ++ [⟨now, jsTrim input, false, now⟩])) := by
  unfold addTask
  rw [if_neg h, persistEffect_slot_of_ne _ (by simp)]

theorem toggleTask_tasks (i : Nat) (s : StoreState) :
    (toggleTask i s).tasks = s.tasks.map (fun t =>
      if t.id = i then { t with completed := !t.completed } else t) := by
  unfold toggleTask; rw [persistEffect_tasks]

theorem toggleTask_map_id (i : Nat) (s : StoreState) :
    (toggleTask i s).tasks.map Task.id = s.tasks.map Task.id := by
  rw [toggleTask_tasks, List.map_map]
  refine List.map_congr_left fun t _ => ?_
  by_cases h : t.id = i <;> simp [h]

theorem deleteTask_tasks (i : Nat) (s : StoreState) :
    (deleteTask i s).tasks = s.tasks.filter (fun t => t.id ≠ i) := by
  simp only [deleteTask]
  rw [persistEffect_tasks]
  split <;> rfl

theorem saveEdit_of_trim_nil (i : Nat) (s : StoreState)
    (h : jsTrim s.editingText = "") : saveEdit i s = s := by
  unfold saveEdit; rw [if_pos h]

theorem saveEdit_tasks_of_ne (i : Nat) (s : StoreState)
    (h : jsTrim s.editingText ≠ "") :
    (saveEdit i s).tasks = s.tasks.map (fun t =>
      if t.id = i then { t with text := jsTrim s.editingText } else t) := by
  unfold saveEdit; rw [if_neg h, persistEffect_tasks]

theorem saveEdit_editingId_of_ne (i : Nat) (s : StoreState)
    (h : jsTrim s.editingText ≠ "") : (saveEdit i s).editingId = none := by
  unfold saveEdit; rw [if_neg h, persistEffect_editingId]

theorem saveEdit_editingText_of_ne (i : Nat) (s : StoreState)
    (h : jsTrim s.editingText ≠ "") : (saveEdit i s).editingText = "" := by
  unfold saveEdit; rw [if_neg h, persistEffect_editingText]

theorem saveEdit_map_id (i : Nat) (s : StoreState) :
    (saveEdit i s).tasks.map Task.id = s.tasks.map Task.id := by
  by_cases h : jsTrim s.editingText = ""
  · rw [saveEdit_of_trim_nil i s h]
  · rw [saveEdit_tasks_of_ne i s h, List.map_map]
    refine List.map_congr_left fun t _ => ?_
    by_cases ht : t.id = i <;> simp [ht]

/-! ### Claim theorems -/

/-- C2. Add validity: `addTask` is a silent no-op when the input trims to
the empty string, and otherwise appends exactly one task — with
`completed = false`, the trimmed text, and id and `createdAt` taken from
the current clock — to the end of the list, leaving existing tasks
unchanged. -/
theorem add_validity (s : StoreState) (input : String) (now : Nat) :
    (jsTrim input = "" → addTask input now s = s) ∧
    (jsTrim input ≠ "" →
      (addTask input now s).tasks = s.tasks ++ [⟨now, jsTrim input, false, now⟩]) :=
  ⟨addTask_of_trim_nil now s, addTask_tasks_of_ne now s⟩

/-- C2 witness: `add("")` and `add("   ")` are no-ops; `add(" buy milk ")`
appends exactly `⟨5, "buy milk", false, 5⟩`. -/
theorem add_validity_witness :
    addTask "" 5 (initState none) = initState none ∧
    addTask "   " 5 (initState none) = initState none ∧
    (addTask " buy milk " 5 (initState none)).tasks = [⟨5, "buy milk", false, 5⟩] :=
  ⟨(add_validity (initState none) "" 5).1 (by decide),
   (add_validity (initState none) "   " 5).1 (by decide),
   by rw [(add_validity (initState none) " buy milk " 5).2 (by decide)]; decide⟩

/-- C1. Persistence asymmetry: `clearAllTasks` and a `deleteTask` that
empties the list remove the slot; every mutation that leaves a non-empty
list writes the serialized list; in particular deleting the only task of
a singleton list leaves the slot absent. -/
theorem persistence_asymmetry (s : StoreState) (i : Nat) (input : String) (now : Nat) :
    ((clearAllTasks s).slot = none ∧ (clearAllTasks s).tasks = []) ∧
    ((deleteTask i s).tasks = [] → (deleteTask i s).slot = none) ∧
    ((deleteTask i s).tasks ≠ [] →
      (deleteTask i s).slot = some (serializeTasks ((deleteTask i s).tasks))) ∧
    (jsTrim input ≠ "" →
      (addTask input now s).slot = some (serializeTasks ((addTask input now s).tasks))) ∧
    (s.tasks ≠ [] → (toggleTask i s).slot = some (serializeTasks ((toggleTask i s).tasks))) ∧
    (jsTrim s.editingText ≠ "" → s.tasks ≠ [] →
      (saveEdit i s).slot = some (serializeTasks ((saveEdit i s).tasks))) ∧
    (∀ t, s.tasks = [t] → (deleteTask t.id s).slot = none ∧ (deleteTask t.id s).tasks = []) := by
  refine ⟨⟨?_, ?_⟩, ?_, ?_, ?_, ?_, ?_, ?_⟩
  · exact (persistEffect_slot_of_nil _ rfl).trans rfl
  · exact persistEffect_tasks _
  · intro h
    rw [deleteTask_tasks] at h
    simp only [deleteTask]
    rw [if_pos (by rw [h]; rfl), persistEffect_slot_of_nil _ h]
  · intro h
    have h0 : ¬ (s.tasks.filter (fun t => t.id ≠ i)).length = 0 := by
      rw [deleteTask_tasks] at h
      simpa [List.length_eq_zero] using h
    conv_rhs => rw [deleteTask_tasks]
    simp only [deleteTask]
    rw [if_neg h0]
    exact persistEffect_slot_of_ne _ (by simpa [List.length_eq_zero] using h0)
  · intro h
    conv_rhs => rw [addTask_tasks_of_ne now s h]
    exact addTask_slot_of_ne now s h
  · intro h
    conv_rhs => rw [toggleTask_tasks]
    unfold toggleTask
    exact persistEffect_slot_of_ne _ (by simpa using h)
  · intro he h
    conv_rhs => rw [saveEdit_tasks_of_ne i s he]
    unfold saveEdit
    rw [if_neg he]
    exact persistEffect_slot_of_ne _ (by simpa using h)
  · intro t hst
    have hf : s.tasks.filter (fun u => u.id ≠ t.id) = [] := by
      rw [hst]; simp
    constructor
    · simp only [deleteTask]
      rw [if_pos (by rw [hf]; rfl), persistEffect_slot_of_nil _ hf]
    · rw [deleteTask_tasks]
      exact hf

/-- C1 witness: from the singleton state `[⟨5, "a", false, 5⟩]` whose
slot holds its serialization, `deleteTask 5` leaves the slot absent and
the list empty. -/
theorem persistence_asymmetry_witness :
    (deleteTask 5 ⟨[⟨5, "a", false, 5⟩],
        some (serializeTasks [⟨5, "a", false, 5⟩]), none, ""⟩).slot = none ∧
    (deleteTask 5 ⟨[⟨5, "a", false, 5⟩],
        some (serializeTasks [⟨5, "a", false, 5⟩]), none, ""⟩).tasks = [] :=
  (persistence_asymmetry ⟨[⟨5, "a", false, 5⟩],
      some (serializeTasks [⟨5, "a", false, 5⟩]), none, ""⟩ 0 "" 0).2.2.2.2.2.2
    ⟨5, "a", false, 5⟩ rfl

/-- C7. Toggle pairing: toggling the same id twice restores the list
exactly; a single toggle preserves every id, text, `createdAt` and the
order; a matching task reappears with only `completed` flipped, a
non-matching task reappears unchanged; and when no task has the id the
list is unchanged. -/
theorem toggle_pairing (s : StoreState) (i : Nat) :
    (toggleTask i (toggleTask i s)).tasks = s.tasks ∧
    (toggleTask i s).tasks.map Task.id = s.tasks.map Task.id ∧
    (toggleTask i s).tasks.map Task.text = s.tasks.map Task.text ∧
    (toggleTask i s).tasks.map Task.createdAt = s.tasks.map Task.createdAt ∧
    (∀ t ∈ s.tasks, t.id = i →
      { t with completed := !t.completed } ∈ (toggleTask i s).tasks) ∧
    (∀ t ∈ s.tasks, t.id ≠ i → t ∈ (toggleTask i s).tasks) ∧
    ((∀ t ∈ s.tasks, t.id ≠ i) → (toggleTask i s).tasks = s.tasks) := by
  refine ⟨?_, toggleTask_map_id i s, ?_, ?_, ?_, ?_, ?_⟩
  · rw [toggleTask_tasks, toggleTask_tasks, List.map_map]
    conv_rhs => rw [← List.map_id s.tasks]
    refine List.map_congr_left fun t _ => ?_
    cases t with
    | mk tid ttext tc tca =>
      by_cases h : tid = i
      · subst h
        simp [Function.comp, Bool.not_not]
      · simp [Function.comp, h]
  · rw [toggleTask_tasks, List.map_map]
    refine List.map_congr_left fun t _ => ?_
    by_cases h : t.id = i <;> simp [h]
  · rw [toggleTask_tasks, List.map_map]
    refine List.map_congr_left fun t _ => ?_
    by_cases h : t.id = i <;> simp [h]
  · intro t ht h
    rw [toggleTask_tasks]
    exact List.mem_map.mpr ⟨t, ht, by rw [if_pos h]⟩
  · intro t ht h
    rw [toggleTask_tasks]
    exact List.mem_map.mpr ⟨t, ht, by rw [if_neg h]⟩
  · intro hall
    rw [toggleTask_tasks]
    conv_rhs => rw [← List.map_id s.tasks]
    exact List.map_congr_left fun t ht => by rw [if_neg (hall t ht)]; rfl

/-- C7 witness: on `[⟨5, "a", false, 5⟩]`, toggling id 5 twice restores
the list, and toggling the absent id 7 once is a no-op. -/
theorem toggle_pairing_witness :
    (toggleTask 5 (toggleTask 5 ⟨[⟨5, "a", false, 5⟩], none, none, ""⟩)).tasks =
      [⟨5, "a", false, 5⟩] ∧
    (toggleTask 7 ⟨[⟨5, "a", false, 5⟩], none, none, ""⟩).tasks = [⟨5, "a", false, 5⟩] :=
  ⟨(toggle_pairing ⟨[⟨5, "a", false, 5⟩], none, none, ""⟩ 5).1,
   (toggle_pairing ⟨[⟨5, "a", false, 5⟩], none, none, ""⟩ 7).2.2.2.2.2.2
     (by intro t ht; simp at ht; simp [ht])⟩

/-- C10. saveEdit session behavior: when the scratch buffer trims empty,
`saveEdit` leaves the whole state (list and open session) unchanged; when
it trims non-empty, `saveEdit` always closes the session, and leaves the
task list unchanged when no task matches the id. -/
theorem saveEdit_session (s : StoreState) (i : Nat) :
    (jsTrim s.editingText = "" → saveEdit i s = s) ∧
    (jsTrim s.editingText ≠ "" →
      (saveEdit i s).editingId = none ∧ (saveEdit i s).editingText = "" ∧
      ((∀ t ∈ s.tasks, t.id ≠ i) → (saveEdit i s).tasks = s.tasks)) := by
  refine ⟨saveEdit_of_trim_nil i s, fun h => ⟨saveEdit_editingId_of_ne i s h,
    saveEdit_editingText_of_ne i s h, fun hall => ?_⟩⟩
  rw [saveEdit_tasks_of_ne i s h]
  conv_rhs => rw [← List.map_id s.tasks]
  exact List.map_congr_left fun t ht => by rw [if_neg (hall t ht)]; rfl

/-- C10 witness: with buffer `"  "` the state (including the open
session on id 5) is untouched; with buffer `"new"` and no task of id 7,
the session closes and the list is untouched. -/
theorem saveEdit_session_witness :
    saveEdit 5 ⟨[⟨5, "a", false, 5⟩], none, some 5, "  "⟩ =
      ⟨[⟨5, "a", false, 5⟩], none, some 5, "  "⟩ ∧
    (saveEdit 7 ⟨[⟨5, "a", false, 5⟩], none, some 7, "new"⟩).editingId = none ∧
    (saveEdit 7 ⟨[⟨5, "a", false, 5⟩], none, some 7, "new"⟩).tasks =
      [⟨5, "a", false, 5⟩] :=
  ⟨(saveEdit_session ⟨[⟨5, "a", false, 5⟩], none, some 5, "  "⟩ 5).1 (by decide),
   ((saveEdit_session ⟨[⟨5, "a", false, 5⟩], none, some 7, "new"⟩ 7).2 (by decide)).1,
   ((saveEdit_session ⟨[⟨5, "a", false, 5⟩], none, some 7, "new"⟩ 7).2 (by decide)).2.2
     (by intro t ht; simp at ht; simp [ht])⟩

/-- `Interleave xs ys l`: `l` is an order-preserving merge of `xs` and
`ys` — each element of `l` comes from the front of one of the two lists.
This is the "merge back into original positions" of the filter-partition
property. -/
inductive Interleave : List Task → List Task → List Task → Prop where
  | nil : Interleave [] [] []
  | consLeft {x : Task} {xs ys l : List Task} :
      Interleave xs ys l → Interleave (x :: xs) ys (x :: l)
  | consRight {y : Task} {xs ys l : List Task} :
      Interleave xs ys l → Interleave xs (y :: ys) (y :: l)

/-- C4. Filter partition: `filteredTasks all` is the full list; the
`active` and `completed` views hold exactly the uncompleted resp.
completed tasks, are disjoint, and merging them back into their original
positions (the `Interleave` relation) reconstructs the full list, so both
preserve the underlying relative order. -/
theorem filter_partition (l : List Task) :
    filteredTasks FilterType.all l = l ∧
    (∀ t ∈ filteredTasks FilterType.active l, t.completed = false) ∧
    (∀ t ∈ filteredTasks FilterType.completed l, t.completed = true) ∧
    (∀ t, t ∈ filteredTasks FilterType.active l →
      t ∈ filteredTasks FilterType.completed l → False) ∧
    Interleave (filteredTasks FilterType.active l)
      (filteredTasks FilterType.completed l) l := by
  refine ⟨?_, ?_, ?_, ?_, ?_⟩
  · simp [filteredTasks, filterPred]
  · intro t ht
    have := (List.mem_filter.mp ht).2
    simpa [filterPred] using this
  · intro t ht
    have := (List.mem_filter.mp ht).2
    simpa [filterPred] using this
  · intro t h1 h2
    have e1 := (List.mem_filter.mp h1).2
    have e2 := (List.mem_filter.mp h2).2
    simp [filterPred] at e1 e2
    rw [e1] at e2
    exact Bool.false_ne_true e2
  · induction l with
    | nil => exact Interleave.nil
    | cons a t ih =>
      by_cases h : a.completed
      · have h1 : filteredTasks FilterType.active (a :: t) =
            filteredTasks FilterType.active t := by
          simp [filteredTasks, filterPred, List.filter_cons, h]
        have h2 : filteredTasks FilterType.completed (a :: t) =
            a :: filteredTasks FilterType.completed t := by
          simp [filteredTasks, filterPred, List.filter_cons, h]
        rw [h1, h2]
        exact Interleave.consRight ih
      · have h1 : filteredTasks FilterType.active (a :: t) =
            a :: filteredTasks FilterType.active t := by
          simp [filteredTasks, filterPred, List.filter_cons, h]
        have h2 : filteredTasks FilterType.completed (a :: t) =
            filteredTasks FilterType.completed t := by
          simp [filteredTasks, filterPred, List.filter_cons, h]
        rw [h1, h2]
        exact Interleave.consLeft ih

/-- C4 witness: on a two-task list with mixed states the `active` view
contains only the uncompleted task and the `completed` view only the
completed one. -/
theorem filter_partition_witness :
    Task.completed ⟨1, "a", false, 1⟩ = false ∧
    Task.completed ⟨2, "b", true, 2⟩ = true :=
  ⟨(filter_partition [⟨1, "a", false, 1⟩, ⟨2, "b", true, 2⟩]).2.1
      ⟨1, "a", false, 1⟩ (by decide),
   (filter_partition [⟨1, "a", false, 1⟩, ⟨2, "b", true, 2⟩]).2.2.1
      ⟨2, "b", true, 2⟩ (by decide)⟩

/-- Under pairwise-distinct ids, at most one task matches any given id. -/
theorem filter_id_length_le_one (i : Nat) :
    ∀ (l : List Task), (l.map Task.id).Nodup →
      (l.filter (fun t => t.id = i)).length ≤ 1 := by
  intro l
  induction l with
  | nil => intro _; simp
  | cons a t ih =>
    intro hd
    rw [List.map_cons, List.nodup_cons] at hd
    obtain ⟨hna, hnd⟩ := hd
    rw [List.filter_cons]
    by_cases h : a.id = i
    · rw [if_pos (by simpa using h)]
      have hft : t.filter (fun u => decide (u.id = i)) = [] := by
        rw [List.filter_eq_nil_iff]
        intro u hu
        simp only [decide_eq_true_eq]
        intro hui
        apply hna
        have hm : u.id ∈ t.map Task.id := List.mem_map_of_mem Task.id hu
        rwa [hui, ← h] at hm
      rw [hft]
      simp
    · rw [if_neg (by simpa using h)]
      exact ih hnd

/-- C3 counterexample: ids come from `Date.now()`, so two adds within
the same clock millisecond (here both at time 5) produce two tasks with
the same id 5 — the ids of the reachable two-task state are not pairwise
distinct. -/
theorem id_uniqueness_cex :
    (((addTask "b" 5 (addTask "a" 5 (initState none))).tasks).map Task.id) = [5, 5] ∧
    ¬ ((((addTask "b" 5 (addTask "a" 5 (initState none))).tasks).map Task.id).Nodup) := by
  constructor
  · decide
  · decide

/-- C3 amended: task ids are pairwise distinct in every state reachable
while the clock is strictly increasing between adds (each add's clock
value exceeds every id already in the list) — the non-add operations
preserve distinctness unconditionally — and distinct ids make id lookup
match at most one task. Two adds within the same millisecond violate the
claim as stated (see the counterexample). -/
theorem id_uniqueness_amended (s : StoreState) (input : String) (now i : Nat)
    (hd : (s.tasks.map Task.id).Nodup) :
    ((∀ t ∈ s.tasks, t.id < now) →
      ((addTask input now s).tasks.map Task.id).Nodup) ∧
    ((toggleTask i s).tasks.map Task.id).Nodup ∧
    ((deleteTask i s).tasks.map Task.id).Nodup ∧
    ((saveEdit i s).tasks.map Task.id).Nodup ∧
    (s.tasks.filter (fun t => t.id = i)).length ≤ 1 := by
  refine ⟨?_, ?_, ?_, ?_, filter_id_length_le_one i s.tasks hd⟩
  · intro hfresh
    by_cases h : jsTrim input = ""
    · rw [addTask_of_trim_nil now s h]
      exact hd
    · rw [addTask_tasks_of_ne now s h, List.map_append, List.nodup_append]
      refine ⟨hd, by simp, ?_⟩
      intro a ha hb
      simp at hb
      obtain ⟨t, ht, rfl⟩ := List.mem_map.mp ha
      exact absurd hb (Nat.ne_of_lt (hfresh t ht))
  · rw [toggleTask_map_id]
    exact hd
  · rw [deleteTask_tasks]
    exact ((List.filter_sublist _).map Task.id).nodup hd
  · rw [saveEdit_map_id]
    exact hd

/-- C3 amended witness: two adds at strictly increasing times 5 and 6
yield distinct ids `[5, 6]`. -/
theorem id_uniqueness_amended_witness :
    ((addTask "b" 6 (addTask "a" 5 (initState none))).tasks.map Task.id).Nodup :=
  (id_uniqueness_amended (addTask "a" 5 (initState none)) "b" 6 0 (by decide)).1
    (by decide)

/-- C5. Edit round-trip: starting an edit with the task's current
(trimmed, non-empty) text and saving with the buffer unmodified leaves
the task list unchanged and closes the session; cancelling after any
`startEditing` leaves every task unchanged regardless of the buffer, and
closes the session. Stated for states conforming to the spec's data
model: distinct ids, trimmed non-empty text. -/
theorem edit_round_trip (s : StoreState) (i : Nat) (t : Task) (txt : String)
    (hmem : t ∈ s.tasks) (hid : t.id = i)
    (hnodup : (s.tasks.map Task.id).Nodup)
    (htrim : jsTrim t.text = t.text) (hne : t.text ≠ "") :
    (saveEdit i (startEditing i t.text s)).tasks = s.tasks ∧
    (saveEdit i (startEditing i t.text s)).editingId = none ∧
    (saveEdit i (startEditing i t.text s)).editingText = "" ∧
    (cancelEdit (startEditing i txt s)).tasks = s.tasks ∧
    (cancelEdit (startEditing i txt s)).editingId = none ∧
    (cancelEdit (startEditing i txt s)).editingText = "" := by
  have hbne : jsTrim (startEditing i t.text s).editingText ≠ "" := by
    show jsTrim t.text ≠ ""
    rw [htrim]
    exact hne
  refine ⟨?_, saveEdit_editingId_of_ne _ _ hbne, saveEdit_editingText_of_ne _ _ hbne,
    rfl, rfl, rfl⟩
  rw [saveEdit_tasks_of_ne _ _ hbne]
  show s.tasks.map (fun u => if u.id = i then { u with text := jsTrim t.text } else u) =
    s.tasks
  rw [htrim]
  conv_rhs => rw [← List.map_id s.tasks]
  refine List.map_congr_left fun u hu => ?_
  by_cases h : u.id = i
  · have hu_eq : u = t := List.inj_on_of_nodup_map hnodup hu hmem (by rw [h, hid])
    subst hu_eq
    rw [if_pos h]
    rfl
  · rw [if_neg h]
    rfl

/-- C5 witness: on the singleton list `[⟨5, "old", false, 5⟩]`, editing
id 5 with its current text and saving leaves the list unchanged and
closes the session. -/
theorem edit_round_trip_witness :
    (saveEdit 5 (startEditing 5 "old" ⟨[⟨5, "old", false, 5⟩], none, none, ""⟩)).tasks =
      [⟨5, "old", false, 5⟩] ∧
    (saveEdit 5 (startEditing 5 "old" ⟨[⟨5, "old", false, 5⟩], none, none, ""⟩)).editingId =
      none :=
  ⟨(edit_round_trip ⟨[⟨5, "old", false, 5⟩], none, none, ""⟩ 5 ⟨5, "old", false, 5⟩ "x"
      (by decide) rfl (by decide) (by decide) (by decide)).1,
   (edit_round_trip ⟨[⟨5, "old", false, 5⟩], none, none, ""⟩ 5 ⟨5, "old", false, 5⟩ "x"
      (by decide) rfl (by decide) (by decide) (by decide)).2.1⟩

theorem loadOp_none (s : StoreState) (h : s.slot = none) : loadOp s = s := by
  cases s with
  | mk tasks slot eid etext =>
    have h2 : slot = none := h
    subst h2
    rfl

theorem loadOp_some (s : StoreState) (v : SlotStr) (h : s.slot = some v) :
    loadOp s = (match parseTasks v with
      | some ps => persistEffect { s with tasks := ps.map decodeTask }
      | none => s) := by
  cases s with
  | mk tasks slot eid etext =>
    have h2 : slot = some v := h
    subst h2
    rfl

theorem parseTasks_serialize (l : List Task) :
    parseTasks (serializeTasks l) = some (l.map taskToP) := rfl

/-- C6. Load failure safety: `loadOp` is a total function (the source
wraps parsing in `try`/`catch`, so no exception escapes); from the mount
state (empty list) it leaves the list empty both when the slot is absent
and when the slot value fails to parse, leaving the state exactly as if
nothing had been persisted. -/
theorem load_failure_safe (s : StoreState) (h : s.tasks = []) :
    (s.slot = none → loadOp s = s ∧ (loadOp s).tasks = []) ∧
    (∀ v, s.slot = some v → parseTasks v = none →
      loadOp s = s ∧ (loadOp s).tasks = []) := by
  constructor
  · intro hs
    rw [loadOp_none s hs]
    exact ⟨rfl, h⟩
  · intro v hv hp
    rw [loadOp_some s v hv, hp]
    exact ⟨rfl, h⟩

/-- C6 witness: loading a malformed slot value from the mount state is a
no-op that leaves the list empty. -/
theorem load_failure_safe_witness :
    loadOp ⟨[], some (SlotStr.malformed "not json"), none, ""⟩ =
      ⟨[], some (SlotStr.malformed "not json"), none, ""⟩ ∧
    (loadOp ⟨[], some (SlotStr.malformed "not json"), none, ""⟩).tasks = [] :=
  (load_failure_safe ⟨[], some (SlotStr.malformed "not json"), none, ""⟩ rfl).2
    (SlotStr.malformed "not json") rfl rfl

/-- C9. Load round-trip: if the slot holds the serialization of a task
list, `loadOp` reproduces that list exactly — same ids, texts, completed
flags, order, and `createdAt` recovered to the millisecond through the
string Date encoding. -/
theorem load_round_trip (s : StoreState) (l : List Task)
    (h : s.slot = some (serializeTasks l)) :
    (loadOp s).tasks = l := by
  rw [loadOp_some s _ h, parseTasks_serialize]
  show (persistEffect { s with tasks := (l.map taskToP).map decodeTask }).tasks = l
  rw [persistEffect_tasks]
  show (l.map taskToP).map decodeTask = l
  rw [List.map_map]
  conv_rhs => rw [← List.map_id l]
  exact List.map_congr_left fun t _ => by simp [Function.comp, decodeTask_taskToP]

/-- C9 witness: a list of three tasks with mixed completed states
round-trips through the slot unchanged. -/
theorem load_round_trip_witness :
    (loadOp ⟨[], some (serializeTasks [⟨1, "a", false, 1⟩, ⟨2, "b", true, 2⟩,
        ⟨3, "c", false, 3⟩]), none, ""⟩).tasks =
      [⟨1, "a", false, 1⟩, ⟨2, "b", true, 2⟩, ⟨3, "c", false, 3⟩] :=
  load_round_trip _ _ rfl

/-- A string that is trimmed and non-empty — the spec's constraint on
every task's `text`. -/
def validText (x : String) : Prop := jsTrim x = x ∧ x ≠ ""

/-- The store states reachable by the component's operations across any
number of sessions: a session starts with an empty list over whatever
the slot holds (`init` / `restart`), loads once, and then runs the event
handlers. -/
inductive Reachable : StoreState → Prop where
  | init : Reachable (initState none)
  | add (s : StoreState) (input : String) (now : Nat) :
      Reachable s → Reachable (addTask input now s)
  | toggle (s : StoreState) (i : Nat) : Reachable s → Reachable (toggleTask i s)
  | del (s : StoreState) (i : Nat) : Reachable s → Reachable (deleteTask i s)
  | clear (s : StoreState) : Reachable s → Reachable (clearAllTasks s)
  | start (s : StoreState) (i : Nat) (txt : String) :
      Reachable s → Reachable (startEditing i txt s)
  | save (s : StoreState) (i : Nat) : Reachable s → Reachable (saveEdit i s)
  | cancel (s : StoreState) : Reachable s → Reachable (cancelEdit s)
  | restart (s : StoreState) : Reachable s → Reachable (initState s.slot)
  | load (s : StoreState) : Reachable s → Reachable (loadOp s)

/-- The invariant carried by every reachable state: all task texts are
trimmed and non-empty, and the slot is absent or holds the serialization
of a list whose texts are trimmed and non-empty. -/
def StoreInv (s : StoreState) : Prop :=
  (∀ t ∈ s.tasks, validText t.text) ∧
  (s.slot = none ∨ ∃ l, s.slot = some (serializeTasks l) ∧ ∀ t ∈ l, validText t.text)

theorem persistEffect_inv (s : StoreState) (h : StoreInv s) :
    StoreInv (persistEffect s) := by
  by_cases he : s.tasks = []
  · unfold persistEffect
    rw [if_neg (by simp [he])]
    exact h
  · refine ⟨?_, Or.inr ⟨s.tasks, persistEffect_slot_of_ne s he, h.1⟩⟩
    rw [persistEffect_tasks]
    exact h.1

theorem inv_of_reachable {s : StoreState} (h : Reachable s) : StoreInv s := by
  induction h with
  | init =>
    exact ⟨by simp [initState], Or.inl rfl⟩
  | add s input now hr ih =>
    by_cases hj : jsTrim input = ""
    · rw [addTask_of_trim_nil now s hj]
      exact ih
    · unfold addTask
      rw [if_neg hj]
      apply persistEffect_inv
      refine ⟨?_, ih.2⟩
      intro t ht
      rcases List.mem_append.mp ht with hl | hr2
      · exact ih.1 t hl
      · have ht2 : t = ⟨now, jsTrim input, false, now⟩ := List.mem_singleton.mp hr2
        subst ht2
        exact ⟨jsTrim_idem input, hj⟩
  | toggle s i hr ih =>
    unfold toggleTask
    apply persistEffect_inv
    refine ⟨?_, ih.2⟩
    intro t ht
    obtain ⟨u, hu, rfl⟩ := List.mem_map.mp ht
    by_cases h : u.id = i
    · rw [if_pos h]
      exact ih.1 u hu
    · rw [if_neg h]
      exact ih.1 u hu
  | del s i hr ih =>
    simp only [deleteTask]
    apply persistEffect_inv
    by_cases hc : (s.tasks.filter (fun t => t.id ≠ i)).length = 0
    · rw [if_pos hc]
      refine ⟨?_, Or.inl rfl⟩
      intro t ht
      exact ih.1 t (List.mem_of_mem_filter ht)
    · rw [if_neg hc]
      refine ⟨?_, ih.2⟩
      intro t ht
      exact ih.1 t (List.mem_of_mem_filter ht)
  | clear s hr ih =>
    unfold clearAllTasks
    apply persistEffect_inv
    exact ⟨by simp, Or.inl rfl⟩
  | start s i txt hr ih =>
    exact ⟨ih.1, ih.2⟩
  | save s i hr ih =>
    by_cases hj : jsTrim s.editingText = ""
    · rw [saveEdit_of_trim_nil i s hj]
      exact ih
    · unfold saveEdit
      rw [if_neg hj]
      apply persistEffect_inv
      refine ⟨?_, ih.2⟩
      intro t ht
      obtain ⟨u, hu, rfl⟩ := List.mem_map.mp ht
      by_cases h : u.id = i
      · rw [if_pos h]
        exact ⟨jsTrim_idem _, hj⟩
      · rw [if_neg h]
        exact ih.1 u hu
  | cancel s hr ih =>
    exact ⟨ih.1, ih.2⟩
  | restart s hr ih =>
    exact ⟨by simp [initState], ih.2⟩
  | load s hr ih =>
    cases hs : s.slot with
    | none =>
      rw [loadOp_none s hs]
      exact ih
    | some v =>
      rcases ih.2 with h0 | ⟨l, hl, hvl⟩
      · rw [hs] at h0
        exact absurd h0 (by simp)
      · rw [hs] at hl
        injection hl with hv
        subst hv
        rw [loadOp_some s _ hs, parseTasks_serialize]
        show StoreInv (persistEffect { s with tasks := (l.map taskToP).map decodeTask })
        apply persistEffect_inv
        refine ⟨?_, ih.2⟩
        intro t ht
        rw [List.map_map] at ht
        obtain ⟨u, hu, rfl⟩ := List.mem_map.mp ht
        have : validText u.text := hvl u hu
        simpa [Function.comp, decodeTask_taskToP] using this

/-- C8. Text validity invariant: in every reachable store state — under
any sequence of adds, toggles, deletes, clears, edit operations, session
restarts and loads of the store's own persisted data — every task's text
is trimmed and non-empty. -/
theorem text_validity (s : StoreState) (h : Reachable s) :
    ∀ t ∈ s.tasks, jsTrim t.text = t.text ∧ t.text ≠ "" :=
  fun t ht => (inv_of_reachable h).1 t ht

/-- C8 witness: the state reached by adding " buy milk " holds one task
whose text "buy milk" is trimmed and non-empty. -/
theorem text_validity_witness :
    jsTrim "buy milk" = "buy milk" ∧ "buy milk" ≠ "" :=
  text_validity (addTask " buy milk " 5 (initState none))
    (Reachable.add (initState none) " buy milk " 5 Reachable.init)
    ⟨5, "buy milk", false, 5⟩ (by decide)

end TaskManager
